import Mathlib

/-!
Shallow embedding of the `ravif` encode orchestration core
(`src/ravif/src/cancel.rs`, `src/ravif/src/lib.rs`), and, for the modules
`av1encoder.rs` / `error.rs` / `dirtyalpha.rs` that the crate root declares
but whose sources are not available, a model built from the specification.
-/

namespace Ravif

/-! ## CancellationToken (src/ravif/src/cancel.rs)

The Rust type wraps `Arc<AtomicBool>`: a reference-counted pointer to a
single mutable boolean cell.  We model the heap of atomic cells as a store
(`flags : Nat → Bool` plus an allocation bound `nextId`); a token is the
index of its cell, and `Clone` copies the index (no deep copy), exactly as
`Arc::clone` does. -/

/-- The store of all allocated atomic-boolean cells. -/
structure CancelState where
  flags : Nat → Bool
  nextId : Nat

/-- `CancellationToken`: holds a shared reference (`Arc`) to one cell,
modelled as the cell's index in the store. -/
structure CancellationToken where
  cancelled : Nat
deriving DecidableEq, Repr

/-- A token is allocated in a store if its cell index is below the
allocation bound. -/
def CancellationToken.allocatedIn (t : CancellationToken) (s : CancelState) : Prop :=
  t.cancelled < s.nextId

/-- `CancellationToken::new`: `Arc::new(AtomicBool::new(false))` — allocate a
fresh cell holding `false` and return a token referencing it. -/
def CancellationToken.new (s : CancelState) : CancellationToken × CancelState :=
  (⟨s.nextId⟩,
   ⟨fun i => if i = s.nextId then false else s.flags i, s.nextId + 1⟩)

/-- `#[derive(Clone)]`: cloning copies the `Arc`, i.e. the cell index; the
underlying flag is shared. -/
def CancellationToken.clone (t : CancellationToken) : CancellationToken := t

/-- `cancel()`: `self.cancelled.store(true, Ordering::Relaxed)`. -/
def CancellationToken.cancel (t : CancellationToken) (s : CancelState) : CancelState :=
  ⟨fun i => if i = t.cancelled then true else s.flags i, s.nextId⟩

/-- `is_cancelled()`: `self.cancelled.load(Ordering::Relaxed)`. -/
def CancellationToken.is_cancelled (t : CancellationToken) (s : CancelState) : Bool :=
  s.flags t.cancelled

/-- `reset()`: `self.cancelled.store(false, Ordering::Relaxed)`. -/
def CancellationToken.reset (t : CancellationToken) (s : CancelState) : CancelState :=
  ⟨fun i => if i = t.cancelled then false else s.flags i, s.nextId⟩

/-- `impl Default for CancellationToken { fn default() -> Self { Self::new() } }`. -/
def CancellationToken.mkDefault (s : CancelState) : CancellationToken × CancelState :=
  CancellationToken.new s

/-- C1: a fresh token is not cancelled; after `cancel()` on the token or on
any clone sharing its flag, every such clone reports cancelled; after
`reset()`, every such clone reports not cancelled again. -/
theorem cancellation_token_lifecycle (s : CancelState) :
    (CancellationToken.is_cancelled (CancellationToken.new s).1 (CancellationToken.new s).2
      = false) ∧
    (∀ t t' : CancellationToken, t'.cancelled = t.cancelled →
      (t.clone.cancelled = t.cancelled ∧
       CancellationToken.is_cancelled t' (CancellationToken.cancel t s) = true ∧
       CancellationToken.is_cancelled t' (CancellationToken.reset t s) = false)) := by
  refine ⟨?_, ?_⟩
  · simp [CancellationToken.new, CancellationToken.is_cancelled]
  · intro t t' h
    refine ⟨rfl, ?_, ?_⟩
    · simp [CancellationToken.cancel, CancellationToken.is_cancelled, h]
    · simp [CancellationToken.reset, CancellationToken.is_cancelled, h]

/-- Witness for C1 at a concrete store and a concrete pair of clones. -/
theorem cancellation_token_lifecycle_witness :
    CancellationToken.is_cancelled ⟨0⟩
      (CancellationToken.cancel ⟨0⟩ ⟨fun _ => false, 1⟩) = true :=
  ((cancellation_token_lifecycle ⟨fun _ => false, 1⟩).2 ⟨0⟩ ⟨0⟩ rfl).2.1

/-- C9: `Default::default()` delegates to `new()`: the resulting token is not
cancelled, and its cell is fresh — distinct from the cell of every token
allocated beforehand (no shared state). -/
theorem default_token_fresh (s : CancelState) :
    CancellationToken.mkDefault s = CancellationToken.new s ∧
    CancellationToken.is_cancelled (CancellationToken.mkDefault s).1
      (CancellationToken.mkDefault s).2 = false ∧
    (∀ t : CancellationToken, t.allocatedIn s →
      t.cancelled ≠ (CancellationToken.mkDefault s).1.cancelled) := by
  refine ⟨rfl, ?_, ?_⟩
  · simp [CancellationToken.mkDefault, CancellationToken.new,
      CancellationToken.is_cancelled]
  · intro t ht
    simpa [CancellationToken.mkDefault, CancellationToken.new] using
      Nat.ne_of_lt ht

/-- Witness for C9 at a concrete store holding one already-allocated token. -/
theorem default_token_fresh_witness :
    CancellationToken.allocatedIn ⟨0⟩ ⟨fun _ => true, 1⟩ ∧
    (0 : Nat) ≠ (CancellationToken.mkDefault ⟨fun _ => true, 1⟩).1.cancelled :=
  ⟨Nat.zero_lt_one,
   (default_token_fresh ⟨fun _ => true, 1⟩).2.2 ⟨0⟩ Nat.zero_lt_one⟩

/-! ## Data model of the encoder core

The crate root (`lib.rs`) declares `mod av1encoder;`, `mod error;` and
`mod dirtyalpha;`, but those sources are not available; the definitions
below are modelled from the specification (§3, §4.2, §4.3, §7), with the
names `lib.rs` re-exports (`Error`, `AlphaColorMode`, `BitDepth`,
`EncodedImage`, `Encoder`, `ColorModel`). -/

/-- Modelled from the spec (§7), for the missing `error.rs`: the closed set
of failure kinds. -/
inductive Error where
  | InvalidConfig
  | Cancelled
  | EncodingFailed
  | MuxingFailed
deriving DecidableEq, Repr

/-- Modelled from the spec (§3, §4.3), for the missing `av1encoder.rs`: the
alpha color modes re-exported by `lib.rs` (`UnassociatedDirty`,
`UnassociatedClean`, and the premultiplied-style variant). -/
inductive AlphaColorMode where
  | UnassociatedDirty
  | UnassociatedClean
  | Premultiplied
deriving DecidableEq, Repr

/-- Modelled from the spec (§3): bit depth 8 / 10 / auto. -/
inductive BitDepth where
  | Eight
  | Ten
  | Auto
deriving DecidableEq, Repr

/-- Modelled from the spec (§3): color model selection. -/
inductive ColorModel where
  | YCbCr
  | RGB
deriving DecidableEq, Repr

/-- One 8-bit RGBA pixel (`rgb::RGBA8`); channel values are bytes. -/
structure RGBA where
  r : Nat
  g : Nat
  b : Nat
  a : Nat
deriving DecidableEq, Repr

/-- One 8-bit RGB pixel (`rgb::RGB8`). -/
structure RGB where
  r : Nat
  g : Nat
  b : Nat
deriving DecidableEq, Repr

/-- An RGBA pixel buffer (`imgref::Img`): dimensions plus row-major pixels. -/
structure Img where
  width : Nat
  height : Nat
  pixels : List RGBA
deriving DecidableEq, Repr

/-- Modelled from the spec (§3, §4.5): the encode result — final container
bytes plus the compressed payload lengths of the color and alpha planes. -/
structure EncodedImage where
  avif_file : List Nat
  color_byte_size : Nat
  alpha_byte_size : Nat
deriving DecidableEq, Repr

/-- Modelled from the spec (§3, §6), for the missing `av1encoder.rs`: the
builder-populated encoder configuration.  Quality values are kept as exact
rationals (the Rust API takes floats). -/
structure Encoder where
  quality : ℚ
  alpha_quality : ℚ
  speed : Nat
  depth : BitDepth
  color_model : ColorModel
  alpha_color_mode : AlphaColorMode
  threads : Option Nat
  cancel_token : Option CancellationToken
  timeout : Option Nat
deriving DecidableEq

/-- Modelled from the spec: `Encoder::new()` — a default-populated
configuration (the concrete defaults are irrelevant to the claims). -/
def Encoder.new : Encoder :=
  ⟨80, 80, 5, BitDepth.Auto, ColorModel.YCbCr, AlphaColorMode.UnassociatedClean,
   none, none, none⟩

/-- Builder setter: stores the supplied quality verbatim (total function —
infallible; no saturation at set time). -/
def Encoder.with_quality (e : Encoder) (q : ℚ) : Encoder :=
  { e with quality := q }

/-- Builder setter for the alpha-plane quality. -/
def Encoder.with_alpha_quality (e : Encoder) (q : ℚ) : Encoder :=
  { e with alpha_quality := q }

/-- Builder setter for the speed/effort parameter. -/
def Encoder.with_speed (e : Encoder) (s : Nat) : Encoder :=
  { e with speed := s }

/-- Builder setter for the bit depth. -/
def Encoder.with_bit_depth (e : Encoder) (d : BitDepth) : Encoder :=
  { e with depth := d }

/-- Builder setter for the color model. -/
def Encoder.with_color_model (e : Encoder) (c : ColorModel) : Encoder :=
  { e with color_model := c }

/-- Builder setter for the alpha color mode. -/
def Encoder.with_alpha_color_mode (e : Encoder) (m : AlphaColorMode) : Encoder :=
  { e with alpha_color_mode := m }

/-- Builder setter for the thread-count hint. -/
def Encoder.with_num_threads (e : Encoder) (n : Option Nat) : Encoder :=
  { e with threads := n }

/-- Builder setter attaching a cancellation token. -/
def Encoder.with_cancellation_token (e : Encoder) (t : CancellationToken) : Encoder :=
  { e with cancel_token := some t }

/-- Builder setter attaching a timeout duration (milliseconds). -/
def Encoder.with_timeout (e : Encoder) (d : Nat) : Encoder :=
  { e with timeout := some d }

/-- Modelled from the spec (§4.2): validation performed when the
configuration is consumed by the orchestrator — quality and alpha quality
within [0,100], speed within [1,10]. -/
def Encoder.configValid (e : Encoder) : Bool :=
  decide (0 ≤ e.quality) && decide (e.quality ≤ 100) &&
  decide (0 ≤ e.alpha_quality) && decide (e.alpha_quality ≤ 100) &&
  decide (1 ≤ e.speed) && decide (e.speed ≤ 10)

/-! ## Alpha preprocessor (modelled for the missing `dirtyalpha.rs`) -/

/-- Modelled from the spec (§4.3): a deterministic representative color used
to homogenize fully-transparent regions — here the first visible pixel's
color (black if the buffer has no visible pixel). -/
def representativeColor (pixels : List RGBA) : RGBA :=
  match pixels.find? (fun p => 0 < p.a) with
  | some p => p
  | none => ⟨0, 0, 0, 0⟩

/-- Modelled from the spec (§4.3), for the missing `dirtyalpha.rs`: the pure
preprocessing step `(pixel buffer, mode) → preprocessed buffer`.  `Dirty`
passes RGB through unmodified; `Clean` rewrites the RGB of fully-transparent
pixels (`a = 0`) to the deterministic representative and leaves
partially-transparent pixels alone; `Premultiplied` scales color by alpha. -/
def preprocessAlpha (mode : AlphaColorMode) (pixels : List RGBA) : List RGBA :=
  match mode with
  | AlphaColorMode.UnassociatedDirty => pixels
  | AlphaColorMode.UnassociatedClean =>
    let rep := representativeColor pixels
    pixels.map fun p => if p.a = 0 then ⟨rep.r, rep.g, rep.b, p.a⟩ else p
  | AlphaColorMode.Premultiplied =>
    pixels.map fun p => ⟨p.r * p.a / 255, p.g * p.a / 255, p.b * p.a / 255, p.a⟩

/-! ## Encode orchestrator (modelled for the missing `av1encoder.rs`)

The codec engine is external (spec §6): it is a parameter mapping a plane's
samples plus quality/speed to a finite sequence of compressed output units
(packets of bytes).  The environment of one encode call — the successive
reads of the shared token flag and of the elapsed wall clock at each
polling checkpoint — is a `Trace`. -/

/-- The external codec engine (spec §6): plane samples, quality, speed ↦
finite sequence of compressed output units. -/
def CodecEngine : Type :=
  List Nat → ℚ → Nat → List (List Nat)

/-- The environment of one encode call: `flagAt k` is the token flag read at
polling checkpoint `k`; `clockAt k` is the elapsed time observed there. -/
structure Trace where
  flagAt : Nat → Bool
  clockAt : Nat → Nat

/-- Modelled from the spec (§4.4): the cancellation predicate — token flag
(when a token is configured) OR wall-clock deadline exceeded (when a
timeout is configured); first-to-fire wins. -/
def cancelPred (e : Encoder) (tr : Trace) (k : Nat) : Bool :=
  (e.cancel_token.isSome && tr.flagAt k) ||
  (match e.timeout with
   | some d => decide (d ≤ tr.clockAt k)
   | none => false)

/-- Outcome of one polling loop: `output = none` means cancelled (partial
packets discarded); `nextCheck` is the next unused checkpoint index;
`unitsDone` counts codec units actually produced. -/
structure LoopResult where
  output : Option (List (List Nat))
  nextCheck : Nat
  unitsDone : Nat
deriving DecidableEq, Repr

/-- Modelled from the spec (§4.4): the incremental packet-production loop —
before each unit of codec output the orchestrator checks the cancellation
predicate; on cancellation the partial output is discarded. -/
def pollLoop (pred : Nat → Bool) : Nat → List (List Nat) → LoopResult
  | k, [] => ⟨some [], k, 0⟩
  | k, p :: ps =>
    if pred k = true then ⟨none, k, 0⟩
    else
      ⟨((pollLoop pred (k + 1) ps).output).map (p :: ·),
       (pollLoop pred (k + 1) ps).nextCheck,
       (pollLoop pred (k + 1) ps).unitsDone + 1⟩

/-- The orchestrator's terminal (and initial) states, spec §4.4. -/
inductive OrchestratorState where
  | Idle
  | Running
  | Completed
  | Cancelled
  | Failed
deriving DecidableEq, Repr

/-- Result of one encode call: the terminal state reached, the value
returned to the caller, and the number of codec units of work performed. -/
structure EncodeOutcome where
  state : OrchestratorState
  result : Except Error EncodedImage
  work : Nat

/-- Bits of the configured bit depth; `Auto` detects 10 for 8-bit sources
(as the in-crate test `encode8_opaque` records). -/
def depthBits (d : BitDepth) : Nat :=
  match d with
  | BitDepth.Eight => 8
  | BitDepth.Ten => 10
  | BitDepth.Auto => 10

/-- Metadata handed to the muxer (spec §4.5): dimensions and bit depth. -/
def metaBytes (e : Encoder) (img : Img) : List Nat :=
  [img.width, img.height, depthBits e.depth]

/-- Modelled from the spec (§6): the external muxer's
`assemble(primary, alpha, metadata) → bytes` — pure and deterministic. -/
def assemble (meta primary : List Nat) (alpha : Option (List Nat)) : List Nat :=
  meta ++ primary ++ alpha.getD []

/-- The samples of the color plane handed to the codec engine. -/
def colorPlane (pixels : List RGBA) : List Nat :=
  (pixels.map fun p => [p.r, p.g, p.b]).flatten

/-- The samples of the alpha plane handed to the codec engine. -/
def alphaPlane (pixels : List RGBA) : List Nat :=
  pixels.map (fun p => p.a)

/-- Whether the buffer has any transparency (spec §3: scan for alpha < 255). -/
def hasAlphaPixels (img : Img) : Bool :=
  img.pixels.any fun p => p.a < 255

/-- Modelled from the spec (§2, §4.4), for the missing `av1encoder.rs`: one
encode call.  Validate the configuration; exit directly to `Cancelled` when
the predicate already holds before any compression work; otherwise
preprocess the buffer, drive the color-plane job and (when transparency is
present) the alpha-plane job through the polling loop with consecutive
checkpoints, and on success hand both payloads to the muxer. -/
def encode_impl (engine : CodecEngine) (e : Encoder) (img : Img) (tr : Trace) :
    EncodeOutcome :=
  if e.configValid = true then
    if cancelPred e tr 0 = true then
      ⟨OrchestratorState.Cancelled, Except.error Error.Cancelled, 0⟩
    else if hasAlphaPixels img = true then
      match pollLoop (cancelPred e tr) 0
          (engine (colorPlane (preprocessAlpha e.alpha_color_mode img.pixels))
            e.quality e.speed) with
      | ⟨none, _, u⟩ => ⟨OrchestratorState.Cancelled, Except.error Error.Cancelled, u⟩
      | ⟨some cout, k1, u⟩ =>
        match pollLoop (cancelPred e tr) k1
            (engine (alphaPlane img.pixels) e.alpha_quality e.speed) with
        | ⟨none, _, u2⟩ =>
          ⟨OrchestratorState.Cancelled, Except.error Error.Cancelled, u + u2⟩
        | ⟨some aout, _, u2⟩ =>
          ⟨OrchestratorState.Completed,
           Except.ok ⟨assemble (metaBytes e img) cout.flatten (some aout.flatten),
             cout.flatten.length, aout.flatten.length⟩,
           u + u2⟩
    else
      match pollLoop (cancelPred e tr) 0
          (engine (colorPlane img.pixels) e.quality e.speed) with
      | ⟨none, _, u⟩ => ⟨OrchestratorState.Cancelled, Except.error Error.Cancelled, u⟩
      | ⟨some cout, _, u⟩ =>
        ⟨OrchestratorState.Completed,
         Except.ok ⟨assemble (metaBytes e img) cout.flatten none,
           cout.flatten.length, 0⟩,
         u⟩
  else ⟨OrchestratorState.Failed, Except.error Error.InvalidConfig, 0⟩

/-- `Encoder::encode_rgba` (spec §6). -/
def Encoder.encode_rgba (e : Encoder) (engine : CodecEngine) (img : Img)
    (tr : Trace) : EncodeOutcome :=
  encode_impl engine e img tr

/-- An RGB pixel buffer for `encode_rgb`. -/
structure ImgRgb where
  width : Nat
  height : Nat
  pixels : List RGB
deriving DecidableEq, Repr

/-- `Encoder::encode_rgb` (spec §6): an RGB buffer is a fully opaque image. -/
def Encoder.encode_rgb (e : Encoder) (engine : CodecEngine) (img : ImgRgb)
    (tr : Trace) : EncodeOutcome :=
  encode_impl engine e
    ⟨img.width, img.height, img.pixels.map fun p => ⟨p.r, p.g, p.b, 255⟩⟩ tr

/-- The number of codec units the engine would produce for a given call if
never cancelled (color packets, plus alpha packets when transparency is
present). -/
def totalUnits (engine : CodecEngine) (e : Encoder) (img : Img) : Nat :=
  if hasAlphaPixels img = true then
    (engine (colorPlane (preprocessAlpha e.alpha_color_mode img.pixels))
        e.quality e.speed).length +
      (engine (alphaPlane img.pixels) e.alpha_quality e.speed).length
  else
    (engine (colorPlane img.pixels) e.quality e.speed).length

/-! ## Properties of the polling loop -/

/-- The next unused checkpoint index is the start index plus the units done. -/
theorem pollLoop_nextCheck (pred : Nat → Bool) :
    ∀ (ps : List (List Nat)) (k : Nat),
      (pollLoop pred k ps).nextCheck = k + (pollLoop pred k ps).unitsDone := by
  intro ps
  induction ps with
  | nil => intro k; rfl
  | cons p ps ih =>
    intro k
    by_cases h : pred k = true
    · simp only [pollLoop]
      rw [if_pos h]
      rfl
    · have h2 := ih (k + 1)
      simp only [pollLoop]
      rw [if_neg h]
      show (pollLoop pred (k + 1) ps).nextCheck
        = k + ((pollLoop pred (k + 1) ps).unitsDone + 1)
      omega

/-- If the cancellation predicate holds from checkpoint `K` on, the loop
performs at most `K - k` units of codec work. -/
theorem pollLoop_work_bound (pred : Nat → Bool) (K : Nat)
    (hK : ∀ j, K ≤ j → pred j = true) :
    ∀ (ps : List (List Nat)) (k : Nat), (pollLoop pred k ps).unitsDone ≤ K - k := by
  intro ps
  induction ps with
  | nil => intro k; exact Nat.zero_le _
  | cons p ps ih =>
    intro k
    by_cases h : pred k = true
    · simp only [pollLoop]
      rw [if_pos h]
      exact Nat.zero_le _
    · have hk : k < K := by
        by_contra hk
        exact h (hK k (Nat.le_of_not_lt hk))
      have h2 := ih (k + 1)
      simp only [pollLoop]
      rw [if_neg h]
      show (pollLoop pred (k + 1) ps).unitsDone + 1 ≤ K - k
      omega

/-- A loop that runs to completion produced every unit, and every checkpoint
it passed had a false predicate. -/
theorem pollLoop_complete (pred : Nat → Bool) :
    ∀ (ps : List (List Nat)) (k : Nat) (out : List (List Nat)),
      (pollLoop pred k ps).output = some out →
      (pollLoop pred k ps).unitsDone = ps.length ∧
      ∀ j, k ≤ j → j < k + ps.length → pred j = false := by
  intro ps
  induction ps with
  | nil =>
    intro k out _
    refine ⟨rfl, ?_⟩
    intro j h1 h2
    simp only [List.length_nil] at h2
    omega
  | cons p ps ih =>
    intro k out hout
    by_cases h : pred k = true
    · rw [pollLoop, if_pos h] at hout
      exact absurd hout (by simp)
    · have hfalse : pred k = false := by
        cases hpk : pred k with
        | true => exact absurd hpk h
        | false => rfl
      rw [pollLoop, if_neg h] at hout ⊢
      simp only [List.length_cons]
      match hrec : (pollLoop pred (k + 1) ps).output with
      | none =>
        rw [hrec] at hout
        exact absurd hout (by simp)
      | some rest =>
        obtain ⟨h1, h2⟩ := ih (k + 1) rest hrec
        constructor
        · show (pollLoop pred (k + 1) ps).unitsDone + 1 = ps.length + 1
          omega
        · intro j hj1 hj2
          rcases Nat.eq_or_lt_of_le hj1 with hj | hj
          · rw [← hj]
            exact hfalse
          · exact h2 j hj (by omega)

/-! ## Claims about the encode orchestrator -/

/-- C2: with a cancellation token configured and already cancelled before the
call, `encode_rgba` and `encode_rgb` go straight to `Cancelled`, return
`Error.Cancelled`, perform zero units of codec work, and the outcome does
not depend on the codec engine at all. -/
theorem precancelled_early_exit (engine engine' : CodecEngine) (e : Encoder)
    (img : Img) (imgr : ImgRgb) (tr : Trace)
    (hv : e.configValid = true)
    (htok : e.cancel_token.isSome = true)
    (hflag : tr.flagAt 0 = true) :
    e.encode_rgba engine img tr
      = ⟨OrchestratorState.Cancelled, Except.error Error.Cancelled, 0⟩ ∧
    e.encode_rgb engine imgr tr
      = ⟨OrchestratorState.Cancelled, Except.error Error.Cancelled, 0⟩ ∧
    e.encode_rgba engine img tr = e.encode_rgba engine' img tr := by
  have hpred : cancelPred e tr 0 = true := by
    simp [cancelPred, htok, hflag]
  refine ⟨?_, ?_, ?_⟩ <;>
    simp [Encoder.encode_rgba, Encoder.encode_rgb, encode_impl, hv, hpred]

/-- Witness for C2: a concrete pre-cancelled token makes a concrete encode
call fail with `Error.Cancelled` after zero units of work. -/
theorem precancelled_early_exit_witness :
    (Encoder.new.with_cancellation_token ⟨0⟩).encode_rgba
        (fun _ _ _ => [[1, 2, 3]]) ⟨1, 1, [⟨10, 20, 30, 255⟩]⟩
        ⟨fun _ => true, fun _ => 0⟩
      = ⟨OrchestratorState.Cancelled, Except.error Error.Cancelled, 0⟩ :=
  (precancelled_early_exit (fun _ _ _ => [[1, 2, 3]]) (fun _ _ _ => [])
    (Encoder.new.with_cancellation_token ⟨0⟩) ⟨1, 1, [⟨10, 20, 30, 255⟩]⟩
    ⟨1, 1, [⟨10, 20, 30⟩]⟩ ⟨fun _ => true, fun _ => 0⟩
    (by decide) rfl rfl).1

/-- C3: an RGBA buffer in which no pixel has alpha < 255 never gets an alpha
plane: every successful encode reports `alpha_byte_size = 0`, whatever the
configured alpha color mode. -/
theorem opaque_skips_alpha (engine : CodecEngine) (e : Encoder) (img : Img)
    (tr : Trace) (out : EncodedImage)
    (hop : ∀ p ∈ img.pixels, ¬ p.a < 255)
    (hok : (e.encode_rgba engine img tr).result = Except.ok out) :
    out.alpha_byte_size = 0 := by
  have hA : hasAlphaPixels img = false := by
    rw [hasAlphaPixels, List.any_eq_false]
    intro p hp
    simpa using hop p hp
  unfold Encoder.encode_rgba encode_impl at hok
  rw [hA] at hok
  simp only [Bool.false_eq_true, if_false] at hok
  split at hok
  · split at hok
    · exact absurd hok (by simp)
    · split at hok
      · exact absurd hok (by simp)
      · dsimp only at hok
        injection hok with h
        rw [← h]
  · exact absurd hok (by simp)

/-- Witness for C3: a concrete fully-opaque 1×1 image encodes successfully
with a zero-length alpha payload. -/
theorem opaque_skips_alpha_witness :
    (⟨[1, 1, 10, 7, 8], 2, 0⟩ : EncodedImage).alpha_byte_size = 0 :=
  opaque_skips_alpha (fun _ _ _ => [[7, 8]]) Encoder.new
    ⟨1, 1, [⟨10, 20, 30, 255⟩]⟩ ⟨fun _ => false, fun _ => 0⟩
    ⟨[1, 1, 10, 7, 8], 2, 0⟩ (by decide) rfl

/-- C6: builder setters are total functions storing the supplied value
verbatim (infallible, no saturation at set time); validity is exactly the
spec's ranges (quality and alpha quality within [0,100], speed within
[1,10]); an out-of-range configuration is rejected at encode time with
`Error.InvalidConfig` and zero units of codec work. -/
theorem builder_infallible_invalid_config (e : Encoder) (q aq : ℚ) (s : Nat)
    (engine : CodecEngine) (img : Img) (tr : Trace)
    (hbad : e.configValid = false) :
    ((e.with_quality q).quality = q ∧
     (e.with_alpha_quality aq).alpha_quality = aq ∧
     (e.with_speed s).speed = s) ∧
    (∀ e' : Encoder, e'.configValid = true ↔
      (0 ≤ e'.quality ∧ e'.quality ≤ 100 ∧ 0 ≤ e'.alpha_quality ∧
       e'.alpha_quality ≤ 100 ∧ 1 ≤ e'.speed ∧ e'.speed ≤ 10)) ∧
    e.encode_rgba engine img tr
      = ⟨OrchestratorState.Failed, Except.error Error.InvalidConfig, 0⟩ := by
  refine ⟨⟨rfl, rfl, rfl⟩, ?_, ?_⟩
  · intro e'
    simp [Encoder.configValid, and_assoc]
  · simp [Encoder.encode_rgba, encode_impl, hbad]

/-- Witness for C6: quality 101 is out of range and is rejected with
`Error.InvalidConfig` at encode time. -/
theorem builder_infallible_invalid_config_witness :
    (Encoder.new.with_quality 101).encode_rgba (fun _ _ _ => [[1]])
        ⟨1, 1, []⟩ ⟨fun _ => false, fun _ => 0⟩
      = ⟨OrchestratorState.Failed, Except.error Error.InvalidConfig, 0⟩ :=
  (builder_infallible_invalid_config (Encoder.new.with_quality 101) 1 1 1
    (fun _ _ _ => [[1]]) ⟨1, 1, []⟩ ⟨fun _ => false, fun _ => 0⟩
    (by decide)).2.2

/-- C8: with no cancellation token and no timeout configured, the encode
outcome is a pure function of buffer, configuration and codec engine: two
calls under arbitrary (even different) environment traces return identical
results — in particular identical `color_byte_size` and `alpha_byte_size`. -/
theorem encode_deterministic (engine : CodecEngine) (e : Encoder) (img : Img)
    (tr tr' : Trace)
    (hnt : e.cancel_token = none) (hnd : e.timeout = none) :
    e.encode_rgba engine img tr = e.encode_rgba engine img tr' := by
  have hp : ∀ t : Trace, cancelPred e t = cancelPred e tr := by
    intro t
    funext k
    simp [cancelPred, hnt, hnd]
  simp [Encoder.encode_rgba, encode_impl, hp tr']

/-- Witness for C8: a concrete token-free, timeout-free encode gives the
same outcome under two different environment traces. -/
theorem encode_deterministic_witness :
    Encoder.new.encode_rgba (fun _ _ _ => [[5]]) ⟨1, 1, [⟨1, 2, 3, 100⟩]⟩
        ⟨fun _ => false, fun _ => 0⟩
      = Encoder.new.encode_rgba (fun _ _ _ => [[5]]) ⟨1, 1, [⟨1, 2, 3, 100⟩]⟩
        ⟨fun _ => true, fun k => k * 1000⟩ :=
  encode_deterministic (fun _ _ _ => [[5]]) Encoder.new ⟨1, 1, [⟨1, 2, 3, 100⟩]⟩
    ⟨fun _ => false, fun _ => 0⟩ ⟨fun _ => true, fun k => k * 1000⟩ rfl rfl

/-- Classification of encode outcomes: a call ends `Cancelled` with exactly
`Except.error Error.Cancelled`, or `Completed` with an `Except.ok` payload,
or `Failed` with `Except.error Error.InvalidConfig`. -/
theorem encode_outcome_cases (engine : CodecEngine) (e : Encoder) (img : Img)
    (tr : Trace) :
    ((e.encode_rgba engine img tr).state = OrchestratorState.Cancelled ∧
      (e.encode_rgba engine img tr).result = Except.error Error.Cancelled) ∨
    ((e.encode_rgba engine img tr).state = OrchestratorState.Completed ∧
      ∃ out, (e.encode_rgba engine img tr).result = Except.ok out) ∨
    ((e.encode_rgba engine img tr).state = OrchestratorState.Failed ∧
      (e.encode_rgba engine img tr).result = Except.error Error.InvalidConfig) := by
  unfold Encoder.encode_rgba encode_impl
  split
  · split
    · exact Or.inl ⟨rfl, rfl⟩
    · split
      · split
        · exact Or.inl ⟨rfl, rfl⟩
        · split
          · exact Or.inl ⟨rfl, rfl⟩
          · exact Or.inr (Or.inl ⟨rfl, _, rfl⟩)
      · split
        · exact Or.inl ⟨rfl, rfl⟩
        · exact Or.inr (Or.inl ⟨rfl, _, rfl⟩)
  · exact Or.inr (Or.inr ⟨rfl, rfl⟩)

/-- C5: every encode terminating in the `Cancelled` state — whether the
token fired or the deadline passed — returns the single nullary value
`Except.error Error.Cancelled`, carrying no container bytes; any two
cancelled runs return identical values, so the two causes are
indistinguishable from the result. -/
theorem cancelled_atomic_single_error (engine₁ engine₂ : CodecEngine)
    (e₁ e₂ : Encoder) (img₁ img₂ : Img) (tr₁ tr₂ : Trace)
    (h₁ : (e₁.encode_rgba engine₁ img₁ tr₁).state = OrchestratorState.Cancelled)
    (h₂ : (e₂.encode_rgba engine₂ img₂ tr₂).state = OrchestratorState.Cancelled) :
    (e₁.encode_rgba engine₁ img₁ tr₁).result = Except.error Error.Cancelled ∧
    (e₁.encode_rgba engine₁ img₁ tr₁).result
      = (e₂.encode_rgba engine₂ img₂ tr₂).result := by
  rcases encode_outcome_cases engine₁ e₁ img₁ tr₁ with ⟨_, hr₁⟩ | ⟨hs, _⟩ | ⟨hs, _⟩
  · rcases encode_outcome_cases engine₂ e₂ img₂ tr₂ with ⟨_, hr₂⟩ | ⟨hs, _⟩ | ⟨hs, _⟩
    · exact ⟨hr₁, hr₁.trans hr₂.symm⟩
    · exact absurd (hs.symm.trans h₂) (by simp)
    · exact absurd (hs.symm.trans h₂) (by simp)
  · exact absurd (hs.symm.trans h₁) (by simp)
  · exact absurd (hs.symm.trans h₁) (by simp)

/-- Witness for C5: a token-cancelled run and a timeout-cancelled run both
return exactly `Except.error Error.Cancelled`. -/
theorem cancelled_atomic_single_error_witness :
    ((Encoder.new.with_cancellation_token ⟨0⟩).encode_rgba (fun _ _ _ => [[1]])
        ⟨1, 1, []⟩ ⟨fun _ => true, fun _ => 0⟩).result
      = Except.error Error.Cancelled ∧
    ((Encoder.new.with_cancellation_token ⟨0⟩).encode_rgba (fun _ _ _ => [[1]])
        ⟨1, 1, []⟩ ⟨fun _ => true, fun _ => 0⟩).result
      = ((Encoder.new.with_timeout 10).encode_rgba (fun _ _ _ => [[2]])
        ⟨1, 1, []⟩ ⟨fun _ => false, fun _ => 50⟩).result :=
  cancelled_atomic_single_error _ _ _ _ _ _ _ _ rfl rfl

/-- C7: the orchestrator evaluates the cancellation predicate between every
two consecutive units of codec output, so if the predicate holds from
checkpoint `K` on while codec units remain to be produced
(`K < totalUnits`), the call returns `Error.Cancelled` having performed at
most `K` units of codec work — the encode never silently runs on past the
signal plus the unit already in flight. -/
theorem polling_bounds_work (engine : CodecEngine) (e : Encoder) (img : Img)
    (tr : Trace) (K : Nat)
    (hv : e.configValid = true)
    (hK : ∀ j, K ≤ j → cancelPred e tr j = true)
    (hlt : K < totalUnits engine e img) :
    (e.encode_rgba engine img tr).result = Except.error Error.Cancelled ∧
    (e.encode_rgba engine img tr).work ≤ K := by
  unfold Encoder.encode_rgba encode_impl
  unfold totalUnits at hlt
  set P := cancelPred e tr with hPdef
  set C := engine (colorPlane (preprocessAlpha e.alpha_color_mode img.pixels))
    e.quality e.speed with hCdef
  set A := engine (alphaPlane img.pixels) e.alpha_quality e.speed with hAdef
  set D := engine (colorPlane img.pixels) e.quality e.speed with hDdef
  have hbound := pollLoop_work_bound P K hK
  split
  next =>
    split
    next => exact ⟨rfl, Nat.zero_le K⟩
    next h0 =>
      split
      next hA =>
        rw [if_pos hA] at hlt
        split
        next k1 u heq =>
          refine ⟨rfl, ?_⟩
          have hb := hbound C 0
          rw [heq] at hb
          exact le_trans hb (by omega)
        next cout k1 u heq =>
          have ho : (pollLoop P 0 C).output = some cout := by rw [heq]
          have hu : (pollLoop P 0 C).unitsDone = u := by rw [heq]
          have hk1 : (pollLoop P 0 C).nextCheck = k1 := by rw [heq]
          obtain ⟨hlen, hchk⟩ := pollLoop_complete P C 0 cout ho
          have huC : u = C.length := by rw [← hu, hlen]
          have hk1u : k1 = u := by
            have hnx := pollLoop_nextCheck P C 0
            rw [hu, hk1] at hnx
            omega
          have hCK : C.length ≤ K := by
            by_contra hgt
            have hf := hchk K (Nat.zero_le K) (by omega)
            have ht := hK K (Nat.le_refl K)
            rw [ht] at hf
            exact absurd hf (by simp)
          split
          next k2 u2 heq2 =>
            refine ⟨rfl, ?_⟩
            have hb := hbound A k1
            rw [heq2] at hb
            dsimp only at hb
            show u + u2 ≤ K
            omega
          next aout k2 u2 heq2 =>
            exfalso
            have ho2 : (pollLoop P k1 A).output = some aout := by rw [heq2]
            obtain ⟨hlen2, hchk2⟩ := pollLoop_complete P A k1 aout ho2
            have ht := hK K (Nat.le_refl K)
            by_cases hKC : K < C.length
            · have hf := hchk K (Nat.zero_le K) (by omega)
              rw [ht] at hf
              exact absurd hf (by simp)
            · have hf := hchk2 K (by omega) (by omega)
              rw [ht] at hf
              exact absurd hf (by simp)
      next hA =>
        rw [if_neg hA] at hlt
        split
        next k1 u heq =>
          refine ⟨rfl, ?_⟩
          have hb := hbound D 0
          rw [heq] at hb
          exact le_trans hb (by omega)
        next cout k1 u heq =>
          exfalso
          have ho : (pollLoop P 0 D).output = some cout := by rw [heq]
          obtain ⟨hlen, hchk⟩ := pollLoop_complete P D 0 cout ho
          have ht := hK K (Nat.le_refl K)
          have hf := hchk K (Nat.zero_le K) (by omega)
          rw [ht] at hf
          exact absurd hf (by simp)
  next hvf => exact absurd hv hvf

/-- Witness for C7: with a 30 ms timeout and a clock advancing 20 ms per
checkpoint, the predicate holds from checkpoint 2 on; of the 4 units the
codec would produce, at most 2 are performed and the call is cancelled. -/
theorem polling_bounds_work_witness :
    ((Encoder.new.with_timeout 30).encode_rgba (fun _ _ _ => [[1], [2], [3], [4]])
        ⟨1, 1, [⟨5, 5, 5, 255⟩]⟩ ⟨fun _ => false, fun k => k * 20⟩).result
      = Except.error Error.Cancelled ∧
    ((Encoder.new.with_timeout 30).encode_rgba (fun _ _ _ => [[1], [2], [3], [4]])
        ⟨1, 1, [⟨5, 5, 5, 255⟩]⟩ ⟨fun _ => false, fun k => k * 20⟩).work ≤ 2 :=
  polling_bounds_work (fun _ _ _ => [[1], [2], [3], [4]])
    (Encoder.new.with_timeout 30) ⟨1, 1, [⟨5, 5, 5, 255⟩]⟩
    ⟨fun _ => false, fun k => k * 20⟩ 2 (by decide)
    (by
      intro j hj
      simp [cancelPred, Encoder.with_timeout, Encoder.new]
      omega)
    (by decide)

/-! ## Fork-join equivalence (lib.rs, `rayoff` fallback) -/

/-- `rayoff::join` (lib.rs, threading feature disabled): evaluate the first
closure, then the second, and return the pair of results. -/
def rayoff.join {A B : Type} (a : Unit → A) (b : Unit → B) : A × B :=
  (a (), b ())

/-- Run one job's step list sequentially over its own accumulator. -/
def runSteps {σ : Type} (steps : List (σ → σ)) (s : σ) : σ :=
  steps.foldl (fun st f => f st) s

/-- Fork-join execution of two independent jobs under an arbitrary
interleaving schedule: `true` lets the first job perform its next step,
`false` the second; each job touches only its own accumulator. -/
def parRun {α β : Type} : List Bool → List (α → α) → List (β → β) → α × β → α × β
  | [], _, _, st => st
  | true :: sch, f :: fs, gs, (x, y) => parRun sch fs gs (f x, y)
  | true :: sch, [], gs, st => parRun sch [] gs st
  | false :: sch, fs, g :: gs, (x, y) => parRun sch fs gs (x, g y)
  | false :: sch, fs, [], st => parRun sch fs [] st

/-- A complete interleaving yields the same pair as running each job's
steps sequentially on its own accumulator. -/
theorem parRun_eq_seq {α β : Type} :
    ∀ (sch : List Bool) (fs : List (α → α)) (gs : List (β → β)) (x : α) (y : β),
      sch.count true = fs.length → sch.count false = gs.length →
      parRun sch fs gs (x, y) = (runSteps fs x, runSteps gs y) := by
  intro sch
  induction sch with
  | nil =>
    intro fs gs x y ha hb
    simp only [List.count_nil] at ha hb
    obtain rfl : fs = [] := List.length_eq_zero.mp ha.symm
    obtain rfl : gs = [] := List.length_eq_zero.mp hb.symm
    rfl
  | cons c sch ih =>
    intro fs gs x y ha hb
    cases c with
    | true =>
      rw [List.count_cons_self] at ha
      rw [List.count_cons_of_ne (by simp)] at hb
      cases fs with
      | nil => simp at ha
      | cons f fs =>
        simp only [List.length_cons] at ha
        show parRun sch fs gs (f x, y) = (runSteps (f :: fs) x, runSteps gs y)
        rw [ih fs gs (f x) y (by omega) hb]
        rfl
    | false =>
      rw [List.count_cons_self] at hb
      rw [List.count_cons_of_ne (by simp)] at ha
      cases gs with
      | nil => simp at hb
      | cons g gs =>
        simp only [List.length_cons] at hb
        show parRun sch fs gs (x, g y) = (runSteps fs x, runSteps (g :: gs) y)
        rw [ih fs gs x (g y) ha (by omega)]
        rfl

/-- C10: the `rayoff::join` fallback returns exactly the pair
`(a (), b ())`, and for independent jobs this sequential scheduling is
observably equivalent to concurrent fork-join execution: every complete
interleaving schedule of the two jobs' steps produces the same result
pair. -/
theorem join_sequential_equiv {α β : Type} (sch : List Bool)
    (fs : List (α → α)) (gs : List (β → β)) (x : α) (y : β)
    (ha : sch.count true = fs.length) (hb : sch.count false = gs.length) :
    (∀ (a : Unit → α) (b : Unit → β), rayoff.join a b = (a (), b ())) ∧
    parRun sch fs gs (x, y)
      = rayoff.join (fun _ => runSteps fs x) (fun _ => runSteps gs y) :=
  ⟨fun _ _ => rfl, (parRun_eq_seq sch fs gs x y ha hb).trans rfl⟩

/-- Witness for C10: a concrete interleaving of one increment step and one
doubling step equals the sequential fork-join pair. -/
theorem join_sequential_equiv_witness :
    parRun [false, true] [fun n => n + 1] [fun n => n * 2] ((0 : Nat), (3 : Nat))
      = rayoff.join (fun _ => runSteps [fun n => n + 1] 0)
          (fun _ => runSteps [fun n => n * 2] 3) :=
  (join_sequential_equiv [false, true] [fun n => n + 1] [fun n => n * 2] 0 3
    (by decide) (by decide)).2

/-! ## Alpha-mode comparison (spec §4.3, for the missing `dirtyalpha.rs`) -/

/-- The `UnassociatedClean` preprocessing agrees with `UnassociatedDirty` on
every visible pixel (alpha > 0): homogenization rewrites only
fully-transparent pixels, so visible colors enter the color plane
numerically unchanged under both modes. -/
theorem clean_preserves_visible (pixels : List RGBA) (i : Nat) (p : RGBA)
    (hp : pixels[i]? = some p) (hvis : 0 < p.a) :
    (preprocessAlpha AlphaColorMode.UnassociatedClean pixels)[i]?
      = (preprocessAlpha AlphaColorMode.UnassociatedDirty pixels)[i]? := by
  simp only [preprocessAlpha, List.getElem?_map, hp, Option.map_some']
  rw [if_neg (by omega)]

end Ravif
